import Mathlib

/-!
Verification of the event transformation and timing engine of `Converters.py`
(class `Converter`): note remapping (`convert`), note-only reduction
(`note_only` / `_make_list_notes_only`), and the simultaneity / tie check
(`_check_ties` / `_check_simultaneous`).

A MIDI message is modelled by its fields used by the code: `type` (the mido
message type string, e.g. "note_on", "note_off", "control_change"), `note`
(the note number) and `time` (the delta time in ticks). Python errors that
the code can raise at runtime are modelled by the `PyErr` type; fallible
operations return `Except PyErr _` or carry an `Option` error component
alongside the post-mutation state of the track, because the Python code
mutates message objects in place.
-/

/-- A mido message, restricted to the fields the converter reads or writes. -/
structure Msg where
  type : String
  note : Nat
  time : Nat
deriving DecidableEq, Repr

/-- Python runtime errors reachable in the modelled code. -/
inductive PyErr where
  | zeroDivisionError
  | indexError
  | typeError
deriving DecidableEq, Repr

/-- Model of `Converter._msg_is_note_on_note_off`: `msg.type == "note_on" or msg.type == "note_off"`. -/
def msg_is_note_on_note_off (m : Msg) : Bool :=
  m.type == "note_on" || m.type == "note_off"

/-- Model of `Converter.convert`, per track. The Python loop mutates each note
message in place (`msg.note = self._mapping_dict[old_note]`); a missing key
raises `KeyError` immediately, so messages before the failing one keep their
remapped notes while the failing message and everything after it are
untouched. The result is the post-mutation state of the track paired with
`some missing_key` when a `KeyError` was raised (`none` on success). The
mapping dict is modelled as `Nat → Option Nat`. -/
def convert (mapping : Nat → Option Nat) : List Msg → List Msg × Option Nat
  | [] => ([], none)
  | m :: rest =>
    if msg_is_note_on_note_off m then
      match mapping m.note with
      | none => (m :: rest, some m.note)
      | some n =>
        let r := convert mapping rest
        ({ m with note := n } :: r.1, r.2)
    else
      let r := convert mapping rest
      (m :: r.1, r.2)

/-- The list built by `Converter._make_list_notes_only` (`new_list`): the
running counter `time_since_last_note_msg` starts at `acc`, each message adds
its `time`; a note message is emitted with the accumulated time and the
counter resets to 0; other messages are dropped. -/
def make_list_notes_only (acc : Nat) : List Msg → List Msg
  | [] => []
  | m :: rest =>
    if msg_is_note_on_note_off m then
      { m with time := acc + m.time } :: make_list_notes_only 0 rest
    else make_list_notes_only (acc + m.time) rest

/-- The post-mutation state of the input list after
`Converter._make_list_notes_only` ran over it: the Python code assigns
`msg.time = time_since_last_note_msg` on the very message objects the input
track holds, so in the original track every note message now carries the
accumulated time while non-note messages are untouched. -/
def make_list_notes_only_track (acc : Nat) : List Msg → List Msg
  | [] => []
  | m :: rest =>
    if msg_is_note_on_note_off m then
      { m with time := acc + m.time } :: make_list_notes_only_track 0 rest
    else m :: make_list_notes_only_track (acc + m.time) rest

/-- Model of `Converter.note_only`: applies `_make_list_notes_only` to every track. -/
def note_only (tracks : List (List Msg)) : List (List Msg) :=
  tracks.map (make_list_notes_only 0)

/-- Model of `Converter._check_simultaneous`. The Python body is
`threshold = self._source_mid.ticks_per_beat / self._quantize_threshold`
followed by `return abs(msg_list[0].time - msg_list[-1]) < threshold`.
Evaluation order: the division raises `ZeroDivisionError` iff the divisor is
0; otherwise `msg_list[0]` raises `IndexError` on an empty list; otherwise
`msg_list[0].time - msg_list[-1]` subtracts a `mido.Message` object from an
`int`, which raises `TypeError` unconditionally — `abs` and the comparison
with the threshold are never reached, so no boolean is ever returned. -/
def check_simultaneous (ticks_per_beat D : Int) (msg_list : List Msg) :
    Except PyErr Bool :=
  if D = 0 then Except.error PyErr.zeroDivisionError
  else
    match msg_list with
    | [] => Except.error PyErr.indexError
    | _ :: _ => Except.error PyErr.typeError

/-- The loop of `Converter._check_ties`, carrying `current_status` and
`simultaneous_list`. Besides the Python return value it also logs, in order,
every argument passed to `_check_simultaneous` (second component), so that
properties of the call sites can be stated. Faithful to the source: a note
message with an empty `simultaneous_list` resets `current_status` to its
type; a matching type is appended; on a type mismatch `_check_simultaneous`
is called on the collected list — `False` is returned if it says the run is
not simultaneous, otherwise the list is reset to empty and the mismatching
message itself is dropped; after the loop `True` is returned without testing
the still-collected final run. -/
def check_ties_aux (tpb D : Int) (status : String) (simul : List Msg) :
    List Msg → Except PyErr Bool × List (List Msg)
  | [] => (Except.ok true, [])
  | m :: rest =>
    if msg_is_note_on_note_off m then
      let status' := if simul.isEmpty then m.type else status
      if m.type = status' then
        check_ties_aux tpb D status' (simul ++ [m]) rest
      else
        match check_simultaneous tpb D simul with
        | Except.error e => (Except.error e, [simul])
        | Except.ok b =>
          if b then
            let r := check_ties_aux tpb D status' [] rest
            (r.1, simul :: r.2)
          else (Except.ok false, [simul])
    else check_ties_aux tpb D status simul rest

/-- Model of `Converter._check_ties`: the loop starting from an empty
`simultaneous_list` and `current_status = ""`. -/
def check_ties (tpb D : Int) (l : List Msg) : Except PyErr Bool :=
  (check_ties_aux tpb D "" [] l).1

/-- Each message of a list paired with its cumulative absolute tick position
(`acc` plus the sum of delta times up to and including the message). -/
def abs_times (acc : Nat) : List Msg → List (Msg × Nat)
  | [] => []
  | m :: rest => (m, acc + m.time) :: abs_times (acc + m.time) rest

/-- C1: the per-run simultaneity test is claimed to return, for a run of
same-kind note events, whether the absolute difference between the
cumulative tick positions of the first and last events is below `ticks_per_beat / D`. The
code instead raises `TypeError` on every nonempty run: `msg_list[-1]` (a
`Message`, not its `.time`) is subtracted from an `int`. -/
theorem check_simultaneous_raises_type_error :
    check_simultaneous 480 100 [⟨"note_on", 60, 100⟩, ⟨"note_on", 62, 3⟩]
      = Except.error PyErr.typeError := rfl

/-- C2: the tie check is claimed to test every maximal same-kind run,
including the final one. On a track whose single (hence final) run of two
note-on events is spread 1000 ticks apart — far beyond the threshold
480 / 100 — the code returns `True` and never calls `_check_simultaneous`
(the call log is empty): the final run is never tested. -/
theorem check_ties_skips_final_run :
    check_ties_aux 480 100 "" [] [⟨"note_on", 60, 0⟩, ⟨"note_on", 62, 1000⟩]
      = (Except.ok true, []) := rfl

/-- C5: with `ticks_per_beat = 480`, `D = 100`, a run at absolute ticks
[100, 103] is claimed simultaneous and [100, 104] not. The code classifies
neither: `_check_simultaneous` raises `TypeError` on both runs (the
comparison against the threshold is never reached). -/
theorem threshold_boundary_unreachable :
    check_simultaneous 480 100 [⟨"note_on", 38, 100⟩, ⟨"note_on", 40, 3⟩]
      = Except.error PyErr.typeError
    ∧ check_simultaneous 480 100 [⟨"note_on", 38, 100⟩, ⟨"note_on", 40, 4⟩]
      = Except.error PyErr.typeError := ⟨rfl, rfl⟩

/-- C3 counterexample: with mapping {5 ↦ 40} and track
[note_on 5, note_on 7], remapping fails on note 7, yet the note of the first
event has already been changed to 40 in place — the claim that the note
field of no event is changed on failure is false. -/
theorem convert_mutates_on_failure :
    convert (fun n => if n = 5 then some 40 else none)
        [⟨"note_on", 5, 0⟩, ⟨"note_on", 7, 0⟩]
      = ([⟨"note_on", 40, 0⟩, ⟨"note_on", 7, 0⟩], some 7)
    ∧ ([⟨"note_on", 40, 0⟩, ⟨"note_on", 7, 0⟩] : List Msg)
      ≠ [⟨"note_on", 5, 0⟩, ⟨"note_on", 7, 0⟩] := ⟨rfl, by decide⟩

/-- C4 counterexample: the note-only reduction mutates its input: after
`_make_list_notes_only` runs on [control_change Δ5, note_on Δ10], the
note-on message of the original track carries time 15, not its original 10. -/
theorem note_only_mutates_input :
    make_list_notes_only_track 0 [⟨"control_change", 0, 5⟩, ⟨"note_on", 38, 10⟩]
      ≠ [⟨"control_change", 0, 5⟩, ⟨"note_on", 38, 10⟩] := by decide

/-- C8 counterexample: a non-positive `ticks_per_beat` or `D` is claimed to
fail with a configuration error before any comparison is attempted. The code
validates nothing: with `ticks_per_beat = 0`, or with both configuration
values negative, evaluation proceeds to the comparison and fails there with
the same `TypeError` as for the valid configuration (480, 100). -/
theorem no_invalid_configuration_check :
    check_simultaneous 0 100 [⟨"note_on", 60, 0⟩] = Except.error PyErr.typeError
    ∧ check_simultaneous (-1) (-1) [⟨"note_on", 60, 0⟩]
      = Except.error PyErr.typeError
    ∧ check_simultaneous 480 100 [⟨"note_on", 60, 0⟩]
      = Except.error PyErr.typeError := ⟨rfl, rfl, rfl⟩

theorem make_list_notes_only_kinds (acc : Nat) (l : List Msg) :
    (make_list_notes_only acc l).map (fun m => (m.type, m.note))
      = (l.filter (fun m => msg_is_note_on_note_off m)).map
          (fun m => (m.type, m.note)) := by
  induction l generalizing acc with
  | nil => rfl
  | cons m rest ih =>
    cases hn : msg_is_note_on_note_off m with
    | true => simp [make_list_notes_only, hn, List.filter_cons, ih]
    | false => simp [make_list_notes_only, hn, List.filter_cons, ih]

theorem abs_times_make_list_notes_only (t acc : Nat) (l : List Msg) :
    (abs_times t (make_list_notes_only acc l)).map Prod.snd
      = ((abs_times (t + acc) l).filter
          (fun p => msg_is_note_on_note_off p.1)).map Prod.snd := by
  induction l generalizing t acc with
  | nil => rfl
  | cons m rest ih =>
    cases hn : msg_is_note_on_note_off m with
    | true =>
      simp only [make_list_notes_only, hn, if_true, abs_times, List.map_cons,
        List.filter_cons]
      rw [ih]
      simp [Nat.add_assoc]
    | false =>
      simp only [make_list_notes_only, hn, abs_times, List.filter_cons,
        Bool.false_eq_true, if_false]
      rw [ih]
      simp [Nat.add_assoc, hn]

theorem make_list_notes_only_all_notes (acc : Nat) (l : List Msg) :
    ∀ m ∈ make_list_notes_only acc l, msg_is_note_on_note_off m = true := by
  induction l generalizing acc with
  | nil => intro m hm; cases hm
  | cons x rest ih =>
    intro m hm
    cases hn : msg_is_note_on_note_off x with
    | true =>
      rw [make_list_notes_only, hn] at hm
      rcases List.mem_cons.mp (by simpa using hm) with rfl | hm'
      · simpa [msg_is_note_on_note_off] using hn
      · exact ih 0 m hm'
    | false =>
      rw [make_list_notes_only, hn] at hm
      exact ih _ m (by simpa using hm)

theorem make_list_notes_only_id (l : List Msg)
    (h : ∀ m ∈ l, msg_is_note_on_note_off m = true) :
    make_list_notes_only 0 l = l := by
  induction l with
  | nil => rfl
  | cons m rest ih =>
    have hm := h m (List.mem_cons_self m rest)
    cases m with
    | mk ty nt ti =>
      simp [make_list_notes_only, hm, Nat.zero_add]
      exact ih fun x hx => h x (List.mem_cons_of_mem _ hx)

theorem make_list_notes_only_idem (l : List Msg) :
    make_list_notes_only 0 (make_list_notes_only 0 l)
      = make_list_notes_only 0 l :=
  make_list_notes_only_id _ (make_list_notes_only_all_notes 0 l)

/-- C7: the note-only reduction retains exactly the note-on/note-off events
(same kind and note sequence as the note subsequence of the input), and
the cumulative absolute tick position of each retained event in the output
equals the
cumulative absolute tick position of the corresponding original event in the
input; an empty track, or one whose note filter is empty, reduces to the
empty track. -/
theorem note_only_reduction (l : List Msg) :
    (make_list_notes_only 0 l).map (fun m => (m.type, m.note))
      = (l.filter (fun m => msg_is_note_on_note_off m)).map
          (fun m => (m.type, m.note))
    ∧ (abs_times 0 (make_list_notes_only 0 l)).map Prod.snd
      = ((abs_times 0 l).filter (fun p => msg_is_note_on_note_off p.1)).map
          Prod.snd
    ∧ make_list_notes_only 0 ([] : List Msg) = []
    ∧ (l.filter (fun m => msg_is_note_on_note_off m) = [] →
        make_list_notes_only 0 l = []) := by
  refine ⟨make_list_notes_only_kinds 0 l, ?_, rfl, ?_⟩
  · simpa using abs_times_make_list_notes_only 0 0 l
  · intro hf
    have h := make_list_notes_only_kinds 0 l
    rw [hf] at h
    simpa using h

/-- Witness for C7 at a concrete no-note track. -/
theorem note_only_reduction_witness :
    make_list_notes_only 0 [⟨"control_change", 0, 7⟩] = [] :=
  (note_only_reduction [⟨"control_change", 0, 7⟩]).2.2.2 (by decide)

/-- C9: the note-only reduction is idempotent, both per track
(`_make_list_notes_only`) and over a whole file (`note_only`). -/
theorem note_only_idempotent (tracks : List (List Msg)) (l : List Msg) :
    make_list_notes_only 0 (make_list_notes_only 0 l) = make_list_notes_only 0 l
    ∧ note_only (note_only tracks) = note_only tracks := by
  refine ⟨make_list_notes_only_idem l, ?_⟩
  induction tracks with
  | nil => rfl
  | cons t ts ih =>
    simp only [note_only, List.map_cons] at ih ⊢
    rw [make_list_notes_only_idem t]
    simpa using ih

/-- Witness for C9 at a concrete track. -/
theorem note_only_idempotent_witness :
    make_list_notes_only 0 (make_list_notes_only 0
        [⟨"note_on", 60, 5⟩, ⟨"control_change", 0, 3⟩])
      = make_list_notes_only 0 [⟨"note_on", 60, 5⟩, ⟨"control_change", 0, 3⟩] :=
  (note_only_idempotent [] [⟨"note_on", 60, 5⟩, ⟨"control_change", 0, 3⟩]).1

/-- C6: when the note of every note event has a mapping entry, `convert` raises
no error, preserves length, message-type sequence and delta-time sequence,
rewrites the note of each note event to its mapping image, and passes non-note
events through unchanged. -/
theorem convert_totality (mapping : Nat → Option Nat) (l : List Msg)
    (h : ∀ m ∈ l, msg_is_note_on_note_off m = true →
      (mapping m.note).isSome = true) :
    (convert mapping l).2 = none
    ∧ (convert mapping l).1.length = l.length
    ∧ (convert mapping l).1.map Msg.type = l.map Msg.type
    ∧ (convert mapping l).1.map Msg.time = l.map Msg.time
    ∧ List.Forall₂ (fun a b =>
        (msg_is_note_on_note_off a = true → mapping a.note = some b.note)
        ∧ (msg_is_note_on_note_off a = false → b = a))
      l (convert mapping l).1 := by
  induction l with
  | nil => exact ⟨rfl, rfl, rfl, rfl, List.Forall₂.nil⟩
  | cons m rest ih =>
    have hm := h m (List.mem_cons_self m rest)
    obtain ⟨h1, h2, h3, h4, h5⟩ := ih fun x hx => h x (List.mem_cons_of_mem m hx)
    cases hn : msg_is_note_on_note_off m with
    | true =>
      obtain ⟨n, hmap⟩ := Option.isSome_iff_exists.mp (hm hn)
      simp only [convert, hn, hmap, if_true, List.map_cons, List.length_cons]
      refine ⟨h1, by simp [h2], by simp [h3], by simp [h4], ?_⟩
      exact List.Forall₂.cons ⟨fun _ => hmap, fun hf => by simp [hf] at hn⟩ h5
    | false =>
      simp only [convert, hn, Bool.false_eq_true, if_false, List.map_cons,
        List.length_cons]
      refine ⟨h1, by simp [h2], by simp [h3], by simp [h4], ?_⟩
      exact List.Forall₂.cons ⟨fun ht => by simp [ht] at hn, fun _ => rfl⟩ h5

/-- Witness for C6: a fully mapped concrete track remaps without error. -/
theorem convert_totality_witness :
    (convert (fun n => if n = 38 then some 40 else none)
      [⟨"note_on", 38, 0⟩, ⟨"control_change", 0, 5⟩, ⟨"note_off", 38, 10⟩]).2
      = none :=
  (convert_totality (fun n => if n = 38 then some 40 else none)
    [⟨"note_on", 38, 0⟩, ⟨"control_change", 0, 5⟩, ⟨"note_off", 38, 10⟩]
    (by decide)).1

/-- C3 amended: on a track containing an unmapped note event, `convert`
raises a key lookup error carrying the missing note identifier; the failing
event and everything after it are untouched, while every event before it has
already been remapped in place (the prefix remaps without error). -/
theorem convert_aborts_with_missing_key (mapping : Nat → Option Nat)
    (l : List Msg)
    (h : ∃ m ∈ l, msg_is_note_on_note_off m = true ∧ mapping m.note = none) :
    ∃ k, (convert mapping l).2 = some k ∧ mapping k = none
      ∧ ∃ pre mm post,
          l = pre ++ mm :: post
          ∧ msg_is_note_on_note_off mm = true
          ∧ mm.note = k
          ∧ (convert mapping pre).2 = none
          ∧ (convert mapping l).1 = (convert mapping pre).1 ++ mm :: post := by
  induction l with
  | nil =>
    obtain ⟨m, hm, _⟩ := h
    cases hm
  | cons m rest ih =>
    cases hn : msg_is_note_on_note_off m with
    | true =>
      cases hmap : mapping m.note with
      | none =>
        refine ⟨m.note, ?_, hmap, [], m, rest, rfl, hn, rfl, rfl, ?_⟩
        · simp [convert, hn, hmap]
        · simp [convert, hn, hmap]
      | some n =>
        have hrest : ∃ mm ∈ rest,
            msg_is_note_on_note_off mm = true ∧ mapping mm.note = none := by
          obtain ⟨mm, hmm, hnote, hmapmm⟩ := h
          rcases List.mem_cons.mp hmm with rfl | hmm'
          · rw [hmap] at hmapmm; cases hmapmm
          · exact ⟨mm, hmm', hnote, hmapmm⟩
        obtain ⟨k, h1, h2, pre, mm, post, heq, h3, h4, h5, h6⟩ := ih hrest
        refine ⟨k, ?_, h2, m :: pre, mm, post, by rw [heq, List.cons_append], h3, h4, ?_, ?_⟩
        · simp [convert, hn, hmap, h1]
        · simp [convert, hn, hmap, h5]
        · simp [convert, hn, hmap, h6]
    | false =>
      have hrest : ∃ mm ∈ rest,
          msg_is_note_on_note_off mm = true ∧ mapping mm.note = none := by
        obtain ⟨mm, hmm, hnote, hmapmm⟩ := h
        rcases List.mem_cons.mp hmm with rfl | hmm'
        · rw [hnote] at hn; cases hn
        · exact ⟨mm, hmm', hnote, hmapmm⟩
      obtain ⟨k, h1, h2, pre, mm, post, heq, h3, h4, h5, h6⟩ := ih hrest
      refine ⟨k, ?_, h2, m :: pre, mm, post, by rw [heq, List.cons_append], h3, h4, ?_, ?_⟩
      · simp [convert, hn, h1]
      · simp [convert, hn, h5]
      · simp [convert, hn, h6]

/-- Witness for C3 amended at mapping {5 ↦ 40} and track
[note_on 5, note_on 7]. -/
theorem convert_aborts_with_missing_key_witness :
    ∃ k, (convert (fun n => if n = 5 then some 40 else none)
            [⟨"note_on", 5, 0⟩, ⟨"note_on", 7, 0⟩]).2 = some k
      ∧ (fun n => if n = 5 then some 40 else none) k = none
      ∧ ∃ pre mm post,
          ([⟨"note_on", 5, 0⟩, ⟨"note_on", 7, 0⟩] : List Msg)
            = pre ++ mm :: post
          ∧ msg_is_note_on_note_off mm = true
          ∧ mm.note = k
          ∧ (convert (fun n => if n = 5 then some 40 else none) pre).2 = none
          ∧ (convert (fun n => if n = 5 then some 40 else none)
              [⟨"note_on", 5, 0⟩, ⟨"note_on", 7, 0⟩]).1
            = (convert (fun n => if n = 5 then some 40 else none) pre).1
              ++ mm :: post :=
  convert_aborts_with_missing_key (fun n => if n = 5 then some 40 else none)
    [⟨"note_on", 5, 0⟩, ⟨"note_on", 7, 0⟩] (by decide)

theorem convert_preserves_type_time (mapping : Nat → Option Nat)
    (l : List Msg) :
    (convert mapping l).1.map Msg.type = l.map Msg.type
    ∧ (convert mapping l).1.map Msg.time = l.map Msg.time
    ∧ List.Forall₂ (fun a b => msg_is_note_on_note_off a = false → b = a)
        l (convert mapping l).1 := by
  induction l with
  | nil => exact ⟨rfl, rfl, List.Forall₂.nil⟩
  | cons m rest ih =>
    obtain ⟨h1, h2, h3⟩ := ih
    cases hn : msg_is_note_on_note_off m with
    | true =>
      cases hmap : mapping m.note with
      | none =>
        simp only [convert, hn, hmap, if_true]
        exact ⟨trivial, trivial, List.forall₂_same.mpr fun x _ _ => rfl⟩
      | some n =>
        simp only [convert, hn, hmap, if_true, List.map_cons]
        refine ⟨by simp [h1], by simp [h2], ?_⟩
        exact List.Forall₂.cons (fun hf => by simp [hf] at hn) h3
    | false =>
      simp only [convert, hn, Bool.false_eq_true, if_false, List.map_cons]
      refine ⟨by simp [h1], by simp [h2], ?_⟩
      exact List.Forall₂.cons (fun _ => rfl) h3

theorem make_list_notes_only_track_preserves (acc : Nat) (l : List Msg) :
    (make_list_notes_only_track acc l).map Msg.note = l.map Msg.note
    ∧ (make_list_notes_only_track acc l).map Msg.type = l.map Msg.type
    ∧ List.Forall₂ (fun a b => msg_is_note_on_note_off a = false → b = a)
        l (make_list_notes_only_track acc l) := by
  induction l generalizing acc with
  | nil => exact ⟨rfl, rfl, List.Forall₂.nil⟩
  | cons m rest ih =>
    cases hn : msg_is_note_on_note_off m with
    | true =>
      obtain ⟨h1, h2, h3⟩ := ih 0
      simp only [make_list_notes_only_track, hn, if_true, List.map_cons]
      refine ⟨by simp [h1], by simp [h2], ?_⟩
      exact List.Forall₂.cons (fun hf => by simp [hf] at hn) h3
    | false =>
      obtain ⟨h1, h2, h3⟩ := ih (acc + m.time)
      simp only [make_list_notes_only_track, hn, Bool.false_eq_true, if_false,
        List.map_cons]
      refine ⟨by simp [h1], by simp [h2], ?_⟩
      exact List.Forall₂.cons (fun _ => rfl) h3

/-- C4 amended: no stage changes a non-note event, and each stage changes at
most one field of a note event — `convert` rewrites only `note` fields
(type and delta-time sequences of the post-mutation track are unchanged),
and the note-only reduction mutates in place only the delta-times of the
retained note events (note and type sequences of the input track are
unchanged, non-note events are untouched); but both stages do mutate the
events of the input rather than leaving them intact. -/
theorem stages_mutation_discipline (mapping : Nat → Option Nat)
    (l : List Msg) :
    ((convert mapping l).1.map Msg.type = l.map Msg.type
      ∧ (convert mapping l).1.map Msg.time = l.map Msg.time
      ∧ List.Forall₂ (fun a b => msg_is_note_on_note_off a = false → b = a)
          l (convert mapping l).1)
    ∧ ((make_list_notes_only_track 0 l).map Msg.note = l.map Msg.note
      ∧ (make_list_notes_only_track 0 l).map Msg.type = l.map Msg.type
      ∧ List.Forall₂ (fun a b => msg_is_note_on_note_off a = false → b = a)
          l (make_list_notes_only_track 0 l)) :=
  ⟨convert_preserves_type_time mapping l,
   make_list_notes_only_track_preserves 0 l⟩

/-- Witness for C4 amended at a concrete mapping and track. -/
theorem stages_mutation_discipline_witness :
    (convert (fun _ => none) [⟨"note_on", 60, 5⟩]).1.map Msg.type
      = ([⟨"note_on", 60, 5⟩] : List Msg).map Msg.type :=
  (stages_mutation_discipline (fun _ => none) [⟨"note_on", 60, 5⟩]).1.1

/-- C8 amended: `_check_simultaneous` never validates its configuration: it
behaves identically for any two nonzero divisors and any `ticks_per_beat`
values (positive or not); the only configuration-dependent failure is the
`ZeroDivisionError` raised by the threshold division when the divisor is 0. -/
theorem config_never_validated (tpb tpb' D D' : Int) (l : List Msg)
    (hD : D ≠ 0) (hD' : D' ≠ 0) :
    check_simultaneous tpb D l = check_simultaneous tpb' D' l
    ∧ check_simultaneous tpb 0 l = Except.error PyErr.zeroDivisionError := by
  unfold check_simultaneous
  rw [if_neg hD, if_neg hD', if_pos rfl]
  exact ⟨rfl, rfl⟩

/-- Witness for C8 amended: a negative configuration behaves exactly like
the default valid one. -/
theorem config_never_validated_witness :
    check_simultaneous (-480) (-5) [⟨"note_on", 60, 0⟩]
      = check_simultaneous 480 100 [⟨"note_on", 60, 0⟩]
    ∧ check_simultaneous (-480) 0 [⟨"note_on", 60, 0⟩]
      = Except.error PyErr.zeroDivisionError :=
  config_never_validated (-480) 480 (-5) 100 [⟨"note_on", 60, 0⟩]
    (by decide) (by decide)

theorem check_simultaneous_err (tpb D : Int) (l : List Msg) (h : l ≠ []) :
    check_simultaneous tpb D l = Except.error PyErr.zeroDivisionError
    ∨ check_simultaneous tpb D l = Except.error PyErr.typeError := by
  unfold check_simultaneous
  by_cases hD : D = 0
  · rw [if_pos hD]
    exact Or.inl rfl
  · rw [if_neg hD]
    cases l with
    | nil => exact absurd rfl h
    | cons m rest => exact Or.inr rfl

/-- C10: every list that the `_check_ties` loop passes to
`_check_simultaneous` is non-empty (an empty run is never tested), so the
`msg_list[0]` / `msg_list[-1]` accesses never raise `IndexError` — the loop
never produces an `IndexError`, from any starting state. -/
theorem check_ties_runs_nonempty (tpb D : Int) (status : String)
    (simul l : List Msg) :
    (∀ r ∈ (check_ties_aux tpb D status simul l).2, r ≠ [])
    ∧ (check_ties_aux tpb D status simul l).1
      ≠ Except.error PyErr.indexError := by
  induction l generalizing status simul with
  | nil =>
    refine ⟨fun r hr => ?_, ?_⟩
    · simp [check_ties_aux] at hr
    · simp [check_ties_aux]
  | cons m rest ih =>
    cases hn : msg_is_note_on_note_off m with
    | false =>
      simp only [check_ties_aux, hn, Bool.false_eq_true, if_false]
      exact ih status simul
    | true =>
      by_cases he : m.type = (if simul.isEmpty then m.type else status)
      · simp only [check_ties_aux, hn, if_true]
        rw [if_pos he]
        exact ih _ _
      · have hs : simul ≠ [] := by
          intro h0
          rw [h0] at he
          simp at he
        simp only [check_ties_aux, hn, if_true]
        rw [if_neg he]
        rcases check_simultaneous_err tpb D simul hs with h | h <;> rw [h] <;>
          refine ⟨fun r hr => ?_, by simp⟩ <;>
          · simp at hr
            subst hr
            exact hs

/-- Witness for C10: on [note_on, note_off] the loop makes exactly one call,
with the non-empty run [note_on]. -/
theorem check_ties_runs_nonempty_witness :
    ([⟨"note_on", 60, 0⟩] : List Msg) ≠ [] :=
  (check_ties_runs_nonempty 480 100 "" []
      [⟨"note_on", 60, 0⟩, ⟨"note_off", 60, 0⟩]).1
    [⟨"note_on", 60, 0⟩] (by decide)
